import Mathlib

/-!
Shallow embedding of the cursor-paginated event listing core of
`cloud-function-event` (the `List` method of the event repository,
together with its helpers `getSortValue`, `encodeCursor` and
`decodeCursor`).

Modelling decisions, recorded here once:

* Go `time.Time` values are modelled as natural numbers (an instant on a
  discrete timeline).  `encoding/json` marshals a `time.Time` into an
  RFC3339 text form, and the repository's `decodeCursor`/`List` re-parse
  that text for temporal plan positions; the only property of the text
  form the code relies on is that parsing inverts formatting.  We model
  the text form as the decimal rendering of the instant (`timeWire`) and
  the parser as its inverse (`parseTimeWire`), both defined concretely
  below, with the round trip proved, not assumed.
* Go `float64` prices are modelled as rationals; JSON marshalling of a
  finite float and unmarshalling back is exact, and no claim computes
  with prices, so only pass-through identity matters.
* A page-token string is modelled by the quotient that
  `base64 ∘ json.Marshal` induces on strings: the empty string, a string
  that decodes to a JSON tuple (`PageToken.wire`), or anything
  undecodable (`PageToken.malformed`).  `decodeCursor` in the source is
  exactly the partial map this quotient captures.
* The Firestore client is external; a query execution is a function from
  the assembled query (`QuerySpec`) to the record list it returns.  The
  `List` method is split at the `q.Documents(ctx)` boundary into
  `buildQuery` (steps 1–7 of the source, which can fail) and `listCore`
  (execution plus next-token derivation).  The `Where`-clause assembly
  (step 5 of the source) constrains which records the store returns and
  is not involved in any property proved here, so `QuerySpec` carries
  the ordering, limit and cursor information only.
-/

namespace CloudFunctionEvent

/-- Sort direction, `firestore.Asc` / `firestore.Desc`. -/
inductive Direction where
  | asc
  | desc
deriving DecidableEq, Repr

/-- The fields of `domain.Event` that `List`/`getSortValue` touch.
Times are instants (see the module docstring), price is rational. -/
structure Event where
  id : String
  eventName : String
  city : String
  etype : String
  price : Rat
  startTime : Nat
  endTime : Nat
  createdAt : Nat
deriving DecidableEq, Repr

/-- A JSON value as it sits in a decoded cursor tuple
(`[]interface{}` after `json.Unmarshal`): strings, numbers, booleans,
null.  A marshalled `time.Time` is a `jstr`. -/
inductive JVal where
  | jstr (s : String)
  | jnum (q : Rat)
  | jbool (b : Bool)
  | jnull
deriving DecidableEq, Repr

/-- A typed cursor value as the Go code holds it before marshalling or
after temporal re-hydration: `vtime` is a `time.Time`. -/
inductive Value where
  | vstr (s : String)
  | vnum (q : Rat)
  | vtime (t : Nat)
  | vbool (b : Bool)
  | vnull
deriving DecidableEq, Repr

/-- The opaque page-token string, quotiented by what
`decodeCursor` (base64 + JSON) makes of it: empty, decodable to a
tuple, or malformed. -/
inductive PageToken where
  | empty
  | wire (vals : List JVal)
  | malformed
deriving DecidableEq, Repr

/-- `domain.FilterRequest` as used by `List` in the repository. -/
structure FilterRequest where
  eventName : String
  city : String
  etype : String
  minPrice : Option Rat
  maxPrice : Option Rat
  startDate : Option Nat
  endDate : Option Nat
deriving DecidableEq, Repr

/-- `domain.SortRequest`. -/
structure SortRequest where
  sortKey : String
  sortDirection : String
  pageSize : Int
  pageToken : PageToken
deriving DecidableEq, Repr

/-- `domain.SearchRequest`. -/
structure SearchRequest where
  filters : FilterRequest
  sorting : SortRequest
deriving DecidableEq, Repr

/-- The `validSorts` allow-list map literal at the top of `List`. -/
def validSorts (s : String) : Bool :=
  s == "created_at" || s == "price" || s == "start_time" ||
  s == "event_name" || s == "city" || s == "end_time"

/-- Step 1 of `List`: collect the active inequality-filter fields, in
the order the source appends them. -/
def inequalityFields (f : FilterRequest) : List String :=
  (if f.eventName ≠ "" then ["event_name"] else []) ++
  (if f.city ≠ "" then ["city"] else []) ++
  (if f.minPrice.isSome ∨ f.maxPrice.isSome then ["price"] else []) ++
  (if f.startDate.isSome then ["start_time"] else []) ++
  (if f.endDate.isSome then ["end_time"] else [])

/-- Step 2 of `List`: the primary sort key before the registry check —
the requested key, unless inequality filters are active and the
requested key is not among them, in which case the first inequality
field. -/
def primarySortRaw (ineq : List String) (reqSort : String) : String :=
  match ineq with
  | [] => reqSort
  | f0 :: rest => if reqSort ∈ f0 :: rest then reqSort else f0

/-- Step 3 of `List` (first half): fall back to `created_at` when the
primary key is not in the allow-list. -/
def primarySort (f : FilterRequest) (reqSort : String) : String :=
  if validSorts (primarySortRaw (inequalityFields f) reqSort) then
    primarySortRaw (inequalityFields f) reqSort
  else "created_at"

/-- Step 3 of `List` (second half): the ordered field list the query is
sorted by — primary key, then the demoted requested key when distinct
and valid, then the `id` tie-breaker. -/
def sortFields (f : FilterRequest) (reqSort : String) : List String :=
  primarySort f reqSort ::
    ((if primarySort f reqSort ≠ reqSort ∧ reqSort ≠ "" ∧ validSorts reqSort then [reqSort] else []) ++
      ["id"])

/-- Step 4 of `List`: the caller's direction string. -/
def direction (sortDirection : String) : Direction :=
  if sortDirection = "desc" then Direction.desc else Direction.asc

/-- Step 6 of `List`: the effective query limit from the requested page
size. -/
def effectiveLimit (pageSize : Int) : Int :=
  if (if pageSize ≤ 0 then 20 else pageSize) > 100 then 100
  else if pageSize ≤ 0 then 20 else pageSize

/-- `getSortValue` from the source: field-name switch over the event,
defaulting to `CreatedAt`. -/
def getSortValue (e : Event) (key : String) : Value :=
  if key = "price" then Value.vnum e.price
  else if key = "start_time" then Value.vtime e.startTime
  else if key = "end_time" then Value.vtime e.endTime
  else if key = "city" then Value.vstr e.city
  else if key = "type" then Value.vstr e.etype
  else if key = "created_at" then Value.vtime e.createdAt
  else if key = "event_name" then Value.vstr e.eventName
  else Value.vtime e.createdAt

/-- The cursor tuple of a record under a field list: `lastEvent.Id` for
the `id` position, `getSortValue` otherwise (the loop in step 8 of the
source). -/
def cursorValuesOf (e : Event) (fields : List String) : List Value :=
  fields.map (fun fl => if fl = "id" then Value.vstr e.id else getSortValue e fl)

/-- Decimal rendering of an instant: the wire text a marshalled
`time.Time` becomes (see the module docstring). -/
def timeWire (t : Nat) : String :=
  if t = 0 then "0" else ⟨(Nat.digits 10 t).reverse.map Nat.digitChar⟩

/-- Read one decimal digit character. -/
def charDigit (c : Char) : Option Nat :=
  if 48 ≤ c.toNat ∧ c.toNat ≤ 57 then some (c.toNat - 48) else none

/-- Read a string of decimal digit characters, most significant first. -/
def charsToDigits : List Char → Option (List Nat)
  | [] => some []
  | c :: cs =>
    match charDigit c, charsToDigits cs with
    | some d, some ds => some (d :: ds)
    | _, _ => none

/-- Parse a non-empty all-digit character list, most significant
first. -/
def parseDigitString (cs : List Char) : Option Nat :=
  if cs = [] then none
  else
    match charsToDigits cs with
    | some ds => some (Nat.ofDigits 10 ds.reverse)
    | none => none

/-- Parse the wire text of an instant (inverse of `timeWire`); `none`
models a `time.Parse` failure. -/
def parseTimeWire (s : String) : Option Nat :=
  parseDigitString s.data

/-- JSON marshalling of one cursor value (`json.Marshal` inside
`encodeCursor`): type-erasing, a time becomes its wire text. -/
def marshalVal : Value → JVal
  | Value.vstr s => JVal.jstr s
  | Value.vnum q => JVal.jnum q
  | Value.vtime t => JVal.jstr (timeWire t)
  | Value.vbool b => JVal.jbool b
  | Value.vnull => JVal.jnull

/-- `encodeCursor` from the source: marshal the tuple and wrap it as an
opaque token. -/
def encodeCursor (vals : List Value) : PageToken :=
  PageToken.wire (vals.map marshalVal)

/-- `decodeCursor` from the source, on the token quotient: recover the
JSON tuple or fail. -/
def decodeCursor : PageToken → Option (List JVal)
  | PageToken.wire vals => some vals
  | _ => none

/-- The temporal-field name switch in the cursor re-typing loop of
`List`. -/
def isTemporal : String → Bool
  | "created_at" => true
  | "start_time" => true
  | "end_time" => true
  | _ => false

/-- Embed a decoded JSON value unchanged. -/
def jvalToValue : JVal → Value
  | JVal.jstr s => Value.vstr s
  | JVal.jnum q => Value.vnum q
  | JVal.jbool b => Value.vbool b
  | JVal.jnull => Value.vnull

/-- One step of the cursor re-typing loop in `List`: at a temporal plan
position a string that parses as an instant is re-hydrated; everything
else passes through unchanged. -/
def rehydrateVal (field : String) (j : JVal) : Value :=
  if isTemporal field then
    match j with
    | JVal.jstr s =>
      match parseTimeWire s with
      | some t => Value.vtime t
      | none => Value.vstr s
    | other => jvalToValue other
  else jvalToValue j

/-- The cursor re-typing loop of `List`, positionally over the plan
(the source indexes `cursorVals[i]` by `sortFields` position; the
lengths are equal when this runs). -/
def rehydrate (fields : List String) (jvals : List JVal) : List Value :=
  List.zipWith rehydrateVal fields jvals

/-- The assembled store query at the `q.Documents(ctx)` boundary:
ordering fields, caller direction, limit, and the `StartAfter` cursor
position when one was supplied. -/
structure QuerySpec where
  sortFields : List String
  direction : Direction
  limit : Int
  startAfter : Option (List Value)
deriving DecidableEq, Repr

/-- The per-field order list the source's `OrderBy` loop builds: the
caller's direction everywhere except the `id` position, which is always
ascending. -/
def orderBysOf (fields : List String) (d : Direction) : List (String × Direction) :=
  fields.map (fun fl => (fl, if fl = "id" then Direction.asc else d))

/-- The order the assembled query is sorted by. -/
def orderBys (q : QuerySpec) : List (String × Direction) :=
  orderBysOf q.sortFields q.direction

/-- The two error outcomes of `List` before the store is consulted:
`fmt.Errorf("invalid page token")` and
`fmt.Errorf("cursor mismatch: sorting criteria changed")`. -/
inductive ListErr where
  | invalidPageToken
  | cursorMismatch
deriving DecidableEq, Repr

/-- Steps 1–7 of `List`: plan, direction and limit computation plus
page-token handling, producing the query to execute or an error. -/
def buildQuery (req : SearchRequest) : Except ListErr QuerySpec :=
  let fields := sortFields req.filters req.sorting.sortKey
  let dir := direction req.sorting.sortDirection
  let limit := effectiveLimit req.sorting.pageSize
  match req.sorting.pageToken with
  | PageToken.empty => Except.ok ⟨fields, dir, limit, none⟩
  | tok =>
    match decodeCursor tok with
    | none => Except.error ListErr.invalidPageToken
    | some vals =>
      if vals.length ≠ fields.length then Except.error ListErr.cursorMismatch
      else Except.ok ⟨fields, dir, limit, some (rehydrate fields vals)⟩

/-- `List` around the store round trip: execute the built query (the
store is a function argument), then derive the next-page token — the
last record's cursor tuple when the page came back full, the empty
token otherwise. -/
def listCore (req : SearchRequest) (store : QuerySpec → List Event) :
    Except ListErr (List Event × PageToken) :=
  match buildQuery req with
  | Except.error e => Except.error e
  | Except.ok q =>
    let events := store q
    if (events.length : Int) = q.limit then
      match events.getLast? with
      | some lastEvent =>
        Except.ok (events, encodeCursor (cursorValuesOf lastEvent q.sortFields))
      | none => Except.ok (events, PageToken.empty)
    else Except.ok (events, PageToken.empty)

/-! ## Concrete fixtures used to exercise the definitions -/

/-- Fixture: both prefix filters (event name, city) active, so the
inequality set has two fields. -/
def exFilterTwoIneq : FilterRequest := ⟨"a", "b", "", none, none, none, none⟩

/-- Fixture: no filters active. -/
def exFilterNone : FilterRequest := ⟨"", "", "", none, none, none, none⟩

/-- Fixture: only the city prefix filter active. -/
def exFilterCity : FilterRequest := ⟨"", "b", "", none, none, none, none⟩

/-- Fixture: a concrete event record. -/
def exEvent : Event := ⟨"e1", "n", "c", "t", 0, 0, 0, 0⟩

/-- Fixture: a store whose query always returns one record. -/
def exStoreOne : QuerySpec → List Event := fun _ => [exEvent]

/-- Fixture: a store whose query always returns nothing. -/
def exStoreEmpty : QuerySpec → List Event := fun _ => []

/-- Fixture: an unfiltered first-page request with page size 1. -/
def exReqPage1 : SearchRequest := ⟨exFilterNone, ⟨"", "asc", 1, PageToken.empty⟩⟩

/-- Fixture: the query `exReqPage1` assembles. -/
def exQSpec1 : QuerySpec := ⟨["created_at", "id"], Direction.asc, 1, none⟩

/-- Fixture: a request carrying a decodable one-value token while the
current plan has two fields. -/
def exReqMismatch : SearchRequest :=
  ⟨exFilterNone, ⟨"", "asc", 1, PageToken.wire [JVal.jnum 1]⟩⟩

/-- Fixture: a request carrying an undecodable token. -/
def exReqBadTok : SearchRequest := ⟨exFilterNone, ⟨"", "asc", 1, PageToken.malformed⟩⟩

/-! ## Lemmas about the time wire codec -/

theorem charDigit_digitChar {d : Nat} (h : d < 10) :
    charDigit (Nat.digitChar d) = some d := by
  interval_cases d <;> rfl

theorem charsToDigits_map_digitChar (l : List Nat) (h : ∀ d ∈ l, d < 10) :
    charsToDigits (l.map Nat.digitChar) = some l := by
  induction l with
  | nil => rfl
  | cons d ds ih =>
    have hd : d < 10 := h d (List.mem_cons_self d ds)
    have hds := ih (fun x hx => h x (List.mem_cons_of_mem d hx))
    simp only [List.map_cons, charsToDigits, charDigit_digitChar hd, hds]

theorem parse_timeWire (t : Nat) : parseTimeWire (timeWire t) = some t := by
  by_cases h : t = 0
  · subst h; decide
  · have hnil : (Nat.digits 10 t).reverse.map Nat.digitChar ≠ [] := by
      simp [Nat.digits_ne_nil_iff_ne_zero, h]
    have hlt : ∀ d ∈ (Nat.digits 10 t).reverse, d < 10 := fun d hd =>
      Nat.digits_lt_base (by norm_num) (List.mem_reverse.mp hd)
    have hs : timeWire t = ⟨(Nat.digits 10 t).reverse.map Nat.digitChar⟩ := by
      rw [timeWire, if_neg h]
    rw [hs]
    show parseDigitString ((Nat.digits 10 t).reverse.map Nat.digitChar) = some t
    rw [parseDigitString, if_neg hnil,
      charsToDigits_map_digitChar _ hlt]
    simp [Nat.ofDigits_digits]

/-! ## Lemmas about the sortable-field registry and the inequality set -/

theorem valid_cases {fl : String} (h : validSorts fl = true) :
    fl = "created_at" ∨ fl = "price" ∨ fl = "start_time" ∨ fl = "event_name" ∨
      fl = "city" ∨ fl = "end_time" := by
  simp only [validSorts, Bool.or_eq_true, beq_iff_eq] at h
  tauto

theorem valid_ne_id {fl : String} (h : validSorts fl = true) : fl ≠ "id" := by
  rcases valid_cases h with h | h | h | h | h | h <;> subst h <;> decide

theorem valid_ne_blank {fl : String} (h : validSorts fl = true) : fl ≠ "" := by
  rcases valid_cases h with h | h | h | h | h | h <;> subst h <;> decide

theorem mem_ite_list {c : Prop} [Decidable c] {x : String} {l : List String}
    (h : x ∈ if c then l else []) : x ∈ l := by
  split_ifs at h with hc
  · exact h
  · exact absurd h (List.not_mem_nil x)

theorem mem_inequalityFields {f : FilterRequest} {x : String}
    (hx : x ∈ inequalityFields f) :
    x = "event_name" ∨ x = "city" ∨ x = "price" ∨ x = "start_time" ∨ x = "end_time" := by
  unfold inequalityFields at hx
  simp only [List.mem_append] at hx
  rcases hx with ((((h | h) | h) | h) | h) <;>
    (have h2 := mem_ite_list h
     simp only [List.mem_singleton] at h2
     subst h2
     simp)

theorem inequality_valid {f : FilterRequest} {x : String}
    (hx : x ∈ inequalityFields f) : validSorts x = true := by
  rcases mem_inequalityFields hx with h | h | h | h | h <;> subst h <;> rfl

/-! ## Lemmas about the computed plan -/

theorem primarySortRaw_mem {ineq : List String} (r : String) (h : ineq ≠ []) :
    primarySortRaw ineq r ∈ ineq := by
  cases ineq with
  | nil => exact absurd rfl h
  | cons f0 rest =>
    show (if r ∈ f0 :: rest then r else f0) ∈ f0 :: rest
    split_ifs with hm
    · exact hm
    · exact List.mem_cons_self f0 rest

theorem primarySortRaw_of_mem {ineq : List String} {r : String} (hm : r ∈ ineq) :
    primarySortRaw ineq r = r := by
  cases ineq with
  | nil => exact absurd hm (List.not_mem_nil r)
  | cons f0 tl =>
    show (if r ∈ f0 :: tl then r else f0) = r
    rw [if_pos hm]

theorem primarySortRaw_of_not_mem {ineq : List String} {r : String}
    (h : ineq ≠ []) (hm : r ∉ ineq) :
    ineq.head? = some (primarySortRaw ineq r) := by
  cases ineq with
  | nil => exact absurd rfl h
  | cons f0 tl =>
    show (f0 :: tl).head? = some (if r ∈ f0 :: tl then r else f0)
    rw [if_neg hm]
    rfl

theorem primarySort_valid (f : FilterRequest) (r : String) :
    validSorts (primarySort f r) = true := by
  unfold primarySort
  split_ifs with h
  · exact h
  · rfl

theorem primarySort_of_ne_nil {f : FilterRequest} (r : String)
    (h : inequalityFields f ≠ []) :
    primarySort f r = primarySortRaw (inequalityFields f) r ∧
      primarySort f r ∈ inequalityFields f := by
  have hm : primarySortRaw (inequalityFields f) r ∈ inequalityFields f :=
    primarySortRaw_mem r h
  have hv := inequality_valid hm
  unfold primarySort
  rw [if_pos hv]
  exact ⟨rfl, hm⟩

theorem sortFields_cases (f : FilterRequest) (r : String) :
    sortFields f r = [primarySort f r, "id"] ∨
      (sortFields f r = [primarySort f r, r, "id"] ∧ validSorts r = true ∧
        primarySort f r ≠ r) := by
  unfold sortFields
  split_ifs with h
  · exact Or.inr ⟨rfl, h.2.2, h.1⟩
  · exact Or.inl rfl

theorem sortFields_mem_valid (f : FilterRequest) (r : String) :
    ∀ fl ∈ sortFields f r, validSorts fl = true ∨ fl = "id" := by
  intro fl hfl
  rcases sortFields_cases f r with h | ⟨h, hv, _⟩ <;> rw [h] at hfl <;>
    simp only [List.mem_cons, List.not_mem_nil, or_false] at hfl
  · rcases hfl with h1 | h1
    · exact Or.inl (h1 ▸ primarySort_valid f r)
    · exact Or.inr h1
  · rcases hfl with h1 | h1 | h1
    · exact Or.inl (h1 ▸ primarySort_valid f r)
    · exact Or.inl (h1 ▸ hv)
    · exact Or.inr h1

theorem sortFields_nodup (f : FilterRequest) (r : String) :
    (sortFields f r).Nodup := by
  have hp := valid_ne_id (primarySort_valid f r)
  rcases sortFields_cases f r with h | ⟨h, hv, hne⟩ <;> rw [h]
  · simp [hp]
  · simp [hp, valid_ne_id hv, hne]

theorem sortFields_length (f : FilterRequest) (r : String) :
    (sortFields f r).length = 2 ∨ (sortFields f r).length = 3 := by
  rcases sortFields_cases f r with h | ⟨h, _, _⟩ <;> rw [h] <;> simp

/-! ## Lemmas about cursor marshalling and re-hydration -/

theorem rehydrateVal_temporal_str (fl : String) (hfl : isTemporal fl = true)
    (s : String) :
    rehydrateVal fl (JVal.jstr s) =
      (match parseTimeWire s with
       | some t => Value.vtime t
       | none => Value.vstr s) := by
  unfold rehydrateVal
  rw [if_pos hfl]

theorem rehydrateVal_marshal (e : Event) (fl : String)
    (h : validSorts fl = true ∨ fl = "id") :
    rehydrateVal fl (marshalVal (if fl = "id" then Value.vstr e.id else getSortValue e fl)) =
      (if fl = "id" then Value.vstr e.id else getSortValue e fl) := by
  rcases h with h | h
  · have hid : fl ≠ "id" := valid_ne_id h
    rw [if_neg hid]
    rcases valid_cases h with h1 | h1 | h1 | h1 | h1 | h1 <;> subst h1
    · show rehydrateVal "created_at" (JVal.jstr (timeWire e.createdAt)) =
        Value.vtime e.createdAt
      rw [rehydrateVal_temporal_str "created_at" rfl, parse_timeWire]
    · rfl
    · show rehydrateVal "start_time" (JVal.jstr (timeWire e.startTime)) =
        Value.vtime e.startTime
      rw [rehydrateVal_temporal_str "start_time" rfl, parse_timeWire]
    · rfl
    · rfl
    · show rehydrateVal "end_time" (JVal.jstr (timeWire e.endTime)) =
        Value.vtime e.endTime
      rw [rehydrateVal_temporal_str "end_time" rfl, parse_timeWire]
  · subst h
    rfl

theorem rehydrate_cursorValues (e : Event) (fields : List String) :
    (∀ fl ∈ fields, validSorts fl = true ∨ fl = "id") →
    rehydrate fields ((cursorValuesOf e fields).map marshalVal) = cursorValuesOf e fields := by
  induction fields with
  | nil => intro _; rfl
  | cons fl rest ih =>
    intro h
    have h1 := h fl (List.mem_cons_self fl rest)
    have h2 : ∀ x ∈ rest, validSorts x = true ∨ x = "id" :=
      fun x hx => h x (List.mem_cons_of_mem fl hx)
    show rehydrateVal fl
        (marshalVal (if fl = "id" then Value.vstr e.id else getSortValue e fl)) ::
        rehydrate rest ((cursorValuesOf e rest).map marshalVal) =
      (if fl = "id" then Value.vstr e.id else getSortValue e fl) :: cursorValuesOf e rest
    rw [rehydrateVal_marshal e fl h1, ih h2]

/-! ## Lemmas about the effective page limit -/

theorem effectiveLimit_pos (ps : Int) : 1 ≤ effectiveLimit ps := by
  unfold effectiveLimit
  split_ifs <;> omega

theorem effectiveLimit_le (ps : Int) : effectiveLimit ps ≤ 100 := by
  unfold effectiveLimit
  split_ifs <;> omega

theorem effectiveLimit_nonpos {ps : Int} (h : ps ≤ 0) : effectiveLimit ps = 20 := by
  unfold effectiveLimit
  split_ifs <;> omega

theorem effectiveLimit_of_in_range {ps : Int} (h1 : 1 ≤ ps) (h2 : ps ≤ 100) :
    effectiveLimit ps = ps := by
  unfold effectiveLimit
  split_ifs <;> omega

theorem effectiveLimit_of_gt {ps : Int} (h : 100 < ps) : effectiveLimit ps = 100 := by
  unfold effectiveLimit
  split_ifs <;> omega

/-! ## Lemmas about query assembly -/

theorem buildQuery_empty {req : SearchRequest}
    (h : req.sorting.pageToken = PageToken.empty) :
    buildQuery req = Except.ok ⟨sortFields req.filters req.sorting.sortKey,
      direction req.sorting.sortDirection, effectiveLimit req.sorting.pageSize, none⟩ := by
  unfold buildQuery
  rw [h]

theorem buildQuery_malformed {req : SearchRequest}
    (h : req.sorting.pageToken = PageToken.malformed) :
    buildQuery req = Except.error ListErr.invalidPageToken := by
  unfold buildQuery
  rw [h]
  rfl

theorem buildQuery_wire {req : SearchRequest} {vals : List JVal}
    (h : req.sorting.pageToken = PageToken.wire vals) :
    buildQuery req =
      (if vals.length ≠ (sortFields req.filters req.sorting.sortKey).length
       then Except.error ListErr.cursorMismatch
       else Except.ok ⟨sortFields req.filters req.sorting.sortKey,
         direction req.sorting.sortDirection, effectiveLimit req.sorting.pageSize,
         some (rehydrate (sortFields req.filters req.sorting.sortKey) vals)⟩) := by
  unfold buildQuery
  rw [h]
  rfl

theorem buildQuery_ok_spec {req : SearchRequest} {q : QuerySpec}
    (h : buildQuery req = Except.ok q) :
    q.sortFields = sortFields req.filters req.sorting.sortKey ∧
    q.direction = direction req.sorting.sortDirection ∧
    q.limit = effectiveLimit req.sorting.pageSize := by
  cases htok : req.sorting.pageToken with
  | empty =>
    rw [buildQuery_empty htok] at h
    cases h
    exact ⟨rfl, rfl, rfl⟩
  | wire vals =>
    rw [buildQuery_wire htok] at h
    by_cases hlen : vals.length = (sortFields req.filters req.sorting.sortKey).length
    · rw [if_neg (not_not_intro hlen)] at h
      cases h
      exact ⟨rfl, rfl, rfl⟩
    · rw [if_pos hlen] at h
      exact Except.noConfusion h
  | malformed =>
    rw [buildQuery_malformed htok] at h
    exact Except.noConfusion h

/-! ## Lemmas about `listCore` -/

theorem listCore_error {req : SearchRequest} (store : QuerySpec → List Event)
    {e : ListErr} (h : buildQuery req = Except.error e) :
    listCore req store = Except.error e := by
  unfold listCore
  rw [h]

theorem listCore_ok_eq {req : SearchRequest} (store : QuerySpec → List Event)
    {q : QuerySpec} (h : buildQuery req = Except.ok q) :
    listCore req store =
      (if ((store q).length : Int) = q.limit then
        match (store q).getLast? with
        | some lastEvent =>
          Except.ok (store q, encodeCursor (cursorValuesOf lastEvent q.sortFields))
        | none => Except.ok (store q, PageToken.empty)
      else Except.ok (store q, PageToken.empty)) := by
  unfold listCore
  rw [h]

theorem listCore_empty_token_ok {req : SearchRequest} (store : QuerySpec → List Event)
    (h : req.sorting.pageToken = PageToken.empty) :
    ∃ page, listCore req store = Except.ok page := by
  rw [listCore_ok_eq store (buildQuery_empty h)]
  split_ifs with hlen
  · cases hlast : (store ⟨sortFields req.filters req.sorting.sortKey,
      direction req.sorting.sortDirection, effectiveLimit req.sorting.pageSize,
      none⟩).getLast? with
    | some lastEvent => exact ⟨_, rfl⟩
    | none => exact ⟨_, rfl⟩
  · exact ⟨_, rfl⟩

theorem listCore_token_encode {req : SearchRequest} {store : QuerySpec → List Event}
    {events : List Event} {tok : PageToken}
    (h : listCore req store = Except.ok (events, tok)) :
    (tok ≠ PageToken.empty ↔ (events.length : Int) = effectiveLimit req.sorting.pageSize) ∧
    (tok ≠ PageToken.empty →
      ∃ lastEvent, events.getLast? = some lastEvent ∧
        tok = encodeCursor (cursorValuesOf lastEvent
          (sortFields req.filters req.sorting.sortKey))) := by
  cases hb : buildQuery req with
  | error e =>
    exact Except.noConfusion ((listCore_error store hb).symm.trans h)
  | ok q =>
    obtain ⟨hsf, _, hlim⟩ := buildQuery_ok_spec hb
    rw [listCore_ok_eq store hb] at h
    by_cases hlen : ((store q).length : Int) = q.limit
    · rw [if_pos hlen] at h
      cases hlast : (store q).getLast? with
      | none =>
        rw [hlast] at h
        have hnil : store q = [] := List.getLast?_eq_none_iff.mp hlast
        rw [hnil] at hlen
        have hpos := effectiveLimit_pos req.sorting.pageSize
        rw [hlim] at hlen
        simp at hlen
        omega
      | some lastEvent =>
        rw [hlast] at h
        simp only [Except.ok.injEq, Prod.mk.injEq] at h
        obtain ⟨rfl, rfl⟩ := h
        constructor
        · constructor
          · intro _
            rw [← hlim]
            exact hlen
          · intro _
            exact fun hcon => PageToken.noConfusion hcon
        · intro _
          exact ⟨lastEvent, hlast, by rw [hsf]⟩
    · rw [if_neg hlen] at h
      simp only [Except.ok.injEq, Prod.mk.injEq] at h
      obtain ⟨rfl, rfl⟩ := h
      refine ⟨⟨fun hemp => absurd rfl hemp, fun hl => ?_⟩, fun hemp => absurd rfl hemp⟩
      exact absurd (hlim ▸ hl) hlen

/-! ## Further plan lemmas -/

theorem id_not_mem_inequality {f : FilterRequest} : "id" ∉ inequalityFields f := by
  intro hm
  rcases mem_inequalityFields hm with h | h | h | h | h <;> exact absurd h (by decide)

theorem orderBysOf_spec (f : FilterRequest) (r : String) (d : Direction) :
    ∃ init, orderBysOf (sortFields f r) d = init ++ [("id", Direction.asc)] ∧
      ∀ p ∈ init, p.2 = d := by
  have hp := valid_ne_id (primarySort_valid f r)
  rcases sortFields_cases f r with h | ⟨h, hv, hne⟩ <;> rw [h] <;> unfold orderBysOf
  · refine ⟨[(primarySort f r, d)], ?_, ?_⟩
    · simp [hp]
    · intro p hp2
      simp at hp2
      rw [hp2]
  · refine ⟨[(primarySort f r, d), (r, d)], ?_, ?_⟩
    · simp [hp, valid_ne_id hv]
    · intro p hp2
      simp at hp2
      rcases hp2 with h2 | h2 <;> rw [h2]

/-! ## Claims -/

/-- C1 as frozen is false on the code: with both prefix filters active,
`city` is in the inequality set but never appears in the computed plan —
only one inequality field ever enters the plan. -/
theorem c1_counterexample :
    "city" ∈ inequalityFields exFilterTwoIneq ∧
      "city" ∉ sortFields exFilterTwoIneq "" := by
  decide

/-- C1 (amended): whenever the inequality set is non-empty, exactly one
of its fields appears in the plan — the requested key when it is itself
a member, otherwise the canonically first inequality field — and that
field is the plan's first entry, so every inequality field that appears
precedes every non-inequality field.  The remaining inequality fields
are omitted from the plan. -/
theorem c1_inequality_prefix (f : FilterRequest) (r : String)
    (h : inequalityFields f ≠ []) :
    ∃ rest, sortFields f r = primarySort f r :: rest ∧
      primarySort f r ∈ inequalityFields f ∧
      (r ∈ inequalityFields f → primarySort f r = r) ∧
      (r ∉ inequalityFields f →
        (inequalityFields f).head? = some (primarySort f r)) ∧
      ∀ g ∈ rest, g ∉ inequalityFields f := by
  obtain ⟨hpr, hpm⟩ := primarySort_of_ne_nil r h
  have hsel1 : r ∈ inequalityFields f → primarySort f r = r := fun hm =>
    hpr.trans (primarySortRaw_of_mem hm)
  have hsel2 : r ∉ inequalityFields f →
      (inequalityFields f).head? = some (primarySort f r) := fun hm => by
    rw [hpr]
    exact primarySortRaw_of_not_mem h hm
  rcases sortFields_cases f r with hc | ⟨hc, hv, hne⟩
  · refine ⟨["id"], hc, hpm, hsel1, hsel2, ?_⟩
    intro g hg
    simp at hg
    subst hg
    exact id_not_mem_inequality
  · have hr : r ∉ inequalityFields f := fun hrm => hne (hsel1 hrm)
    refine ⟨[r, "id"], hc, hpm, hsel1, hsel2, ?_⟩
    intro g hg
    simp at hg
    rcases hg with hg | hg <;> subst hg
    · exact hr
    · exact id_not_mem_inequality

/-- Witness for C1 (amended) at the two-inequality fixture. -/
theorem c1_witness :
    inequalityFields exFilterTwoIneq ≠ [] ∧
    (∃ rest, sortFields exFilterTwoIneq "" = primarySort exFilterTwoIneq "" :: rest ∧
      primarySort exFilterTwoIneq "" ∈ inequalityFields exFilterTwoIneq ∧
      ("" ∈ inequalityFields exFilterTwoIneq → primarySort exFilterTwoIneq "" = "") ∧
      ("" ∉ inequalityFields exFilterTwoIneq →
        (inequalityFields exFilterTwoIneq).head? = some (primarySort exFilterTwoIneq "")) ∧
      ∀ g ∈ rest, g ∉ inequalityFields exFilterTwoIneq) :=
  ⟨by decide, c1_inequality_prefix exFilterTwoIneq "" (by decide)⟩

/-- C2: decoding the encoded cursor tuple of any record against the
plan it was produced under returns the original tuple, with temporal
positions re-hydrated into instants rather than strings. -/
theorem c2_cursor_roundtrip (e : Event) (f : FilterRequest) (r : String) :
    (decodeCursor (encodeCursor (cursorValuesOf e (sortFields f r)))).map
        (rehydrate (sortFields f r)) =
      some (cursorValuesOf e (sortFields f r)) := by
  show some (rehydrate (sortFields f r)
    ((cursorValuesOf e (sortFields f r)).map marshalVal)) = _
  rw [rehydrate_cursorValues e (sortFields f r) (sortFields_mem_valid f r)]

/-- C3: a decodable page token whose arity differs from the current
plan's length is rejected with the cursor-mismatch error, whatever the
store would have answered — no store query result enters the outcome. -/
theorem c3_cursor_plan_mismatch (req : SearchRequest) (store : QuerySpec → List Event)
    (vals : List JVal) (h : req.sorting.pageToken = PageToken.wire vals)
    (hlen : vals.length ≠ (sortFields req.filters req.sorting.sortKey).length) :
    listCore req store = Except.error ListErr.cursorMismatch := by
  apply listCore_error
  rw [buildQuery_wire h, if_pos hlen]

/-- Witness for C3 at a one-value token against a two-field plan. -/
theorem c3_witness :
    exReqMismatch.sorting.pageToken = PageToken.wire [JVal.jnum 1] ∧
    ([JVal.jnum 1] : List JVal).length ≠
      (sortFields exReqMismatch.filters exReqMismatch.sorting.sortKey).length ∧
    listCore exReqMismatch exStoreOne = Except.error ListErr.cursorMismatch :=
  ⟨rfl, by decide, c3_cursor_plan_mismatch exReqMismatch exStoreOne [JVal.jnum 1] rfl (by decide)⟩

/-- C4: the assembled query's order always ends with the `id` field
ascending, and every other ordered field carries the caller's
direction. -/
theorem c4_id_tiebreak (req : SearchRequest) (q : QuerySpec)
    (h : buildQuery req = Except.ok q) :
    ∃ init, orderBys q = init ++ [("id", Direction.asc)] ∧
      ∀ p ∈ init, p.2 = direction req.sorting.sortDirection := by
  obtain ⟨hsf, hdir, _⟩ := buildQuery_ok_spec h
  unfold orderBys
  rw [hsf, hdir]
  exact orderBysOf_spec req.filters req.sorting.sortKey (direction req.sorting.sortDirection)

/-- Witness for C4 at the unfiltered page-size-1 request. -/
theorem c4_witness :
    buildQuery exReqPage1 = Except.ok exQSpec1 ∧
    (∃ init, orderBys exQSpec1 = init ++ [("id", Direction.asc)] ∧
      ∀ p ∈ init, p.2 = direction exReqPage1.sorting.sortDirection) :=
  ⟨rfl, c4_id_tiebreak exReqPage1 exQSpec1 rfl⟩

/-- C5: when the requested key is a valid registry field but not a
member of a non-empty inequality set, the plan is exactly
`[inequality field, requested key, id]` — the requested key is demoted
to secondary and is never primary. -/
theorem c5_requested_key_secondary (f : FilterRequest) (r : String)
    (hv : validSorts r = true) (hne : inequalityFields f ≠ [])
    (hnm : r ∉ inequalityFields f) :
    ∃ p, sortFields f r = [p, r, "id"] ∧ p ∈ inequalityFields f ∧ p ≠ r := by
  obtain ⟨hpr, hpm⟩ := primarySort_of_ne_nil r hne
  have hpne : primarySort f r ≠ r := fun he => hnm (he ▸ hpm)
  have hcond : primarySort f r ≠ r ∧ r ≠ "" ∧ validSorts r = true :=
    ⟨hpne, valid_ne_blank hv, hv⟩
  have hfld : sortFields f r = [primarySort f r, r, "id"] := by
    unfold sortFields
    rw [if_pos hcond]
    rfl
  exact ⟨primarySort f r, hfld, hpm, hpne⟩

/-- Witness for C5: city filter active, `price` requested. -/
theorem c5_witness :
    validSorts "price" = true ∧ inequalityFields exFilterCity ≠ [] ∧
    "price" ∉ inequalityFields exFilterCity ∧
    (∃ p, sortFields exFilterCity "price" = [p, "price", "id"] ∧
      p ∈ inequalityFields exFilterCity ∧ p ≠ "price") :=
  ⟨by decide, by decide, by decide,
    c5_requested_key_secondary exFilterCity "price" (by decide) (by decide) (by decide)⟩

/-- C6: the next-page token is non-empty exactly when the returned
count equals the effective page size, and a non-empty token encodes, in
plan order, the positional values of the last returned record. -/
theorem c6_next_token (req : SearchRequest) (store : QuerySpec → List Event)
    (events : List Event) (tok : PageToken)
    (h : listCore req store = Except.ok (events, tok)) :
    (tok ≠ PageToken.empty ↔ (events.length : Int) = effectiveLimit req.sorting.pageSize) ∧
    (tok ≠ PageToken.empty →
      ∃ lastEvent, events.getLast? = some lastEvent ∧
        tok = encodeCursor (cursorValuesOf lastEvent
          (sortFields req.filters req.sorting.sortKey))) :=
  listCore_token_encode h

/-- Witness for C6 at a full single-record page. -/
theorem c6_witness :
    listCore exReqPage1 exStoreOne =
      Except.ok ([exEvent], PageToken.wire [JVal.jstr "0", JVal.jstr "e1"]) ∧
    ((PageToken.wire [JVal.jstr "0", JVal.jstr "e1"] ≠ PageToken.empty ↔
        (([exEvent] : List Event).length : Int) = effectiveLimit exReqPage1.sorting.pageSize) ∧
      (PageToken.wire [JVal.jstr "0", JVal.jstr "e1"] ≠ PageToken.empty →
        ∃ lastEvent, ([exEvent] : List Event).getLast? = some lastEvent ∧
          PageToken.wire [JVal.jstr "0", JVal.jstr "e1"] =
            encodeCursor (cursorValuesOf lastEvent
              (sortFields exReqPage1.filters exReqPage1.sorting.sortKey)))) :=
  ⟨rfl, c6_next_token exReqPage1 exStoreOne [exEvent]
    (PageToken.wire [JVal.jstr "0", JVal.jstr "e1"]) rfl⟩

/-- C7: an undecodable page token is rejected with the invalid-cursor
error, whatever the store would have answered — no retry, no silent
first-page fallback. -/
theorem c7_invalid_cursor (req : SearchRequest) (store : QuerySpec → List Event)
    (h : req.sorting.pageToken = PageToken.malformed) :
    listCore req store = Except.error ListErr.invalidPageToken :=
  listCore_error store (buildQuery_malformed h)

/-- Witness for C7 at the malformed-token fixture. -/
theorem c7_witness :
    exReqBadTok.sorting.pageToken = PageToken.malformed ∧
    listCore exReqBadTok exStoreOne = Except.error ListErr.invalidPageToken :=
  ⟨rfl, c7_invalid_cursor exReqBadTok exStoreOne rfl⟩

/-- C8 as frozen is false on the code at two concrete inputs: with the
city filter active and the unknown sort key `bogus`, `List` succeeds
but sorts primarily by `city`, not the default creation-time field;
and with the same unknown sort key but a malformed page token, `List`
does not succeed at all — it rejects the request. -/
theorem c8_counterexample :
    validSorts "bogus" = false ∧
    listCore ⟨exFilterCity, ⟨"bogus", "asc", 0, PageToken.empty⟩⟩ exStoreEmpty =
      Except.ok ([], PageToken.empty) ∧
    (sortFields exFilterCity "bogus").head? = some "city" ∧
    "city" ≠ "created_at" ∧
    listCore ⟨exFilterNone, ⟨"bogus", "asc", 0, PageToken.malformed⟩⟩ exStoreEmpty =
      Except.error ListErr.invalidPageToken :=
  ⟨by decide, rfl, by decide, by decide, rfl⟩

/-- C8 (amended): a first-page request (empty page token) with a sort
key outside the registry is never rejected — the unsortable key is
recovered locally, not surfaced.  When additionally no inequality
filter is active, the primary (first) sort field is the default
creation-time field; when inequality filters are active, the primary
sort field is the first inequality field instead. -/
theorem c8_unsortable_fallback (f : FilterRequest) (r sd : String) (ps : Int)
    (store : QuerySpec → List Event) (hv : validSorts r = false) :
    (∃ page, listCore ⟨f, ⟨r, sd, ps, PageToken.empty⟩⟩ store = Except.ok page) ∧
    (inequalityFields f = [] → (sortFields f r).head? = some "created_at") ∧
    (inequalityFields f ≠ [] →
      (sortFields f r).head? = (inequalityFields f).head?) := by
  refine ⟨listCore_empty_token_ok store rfl, ?_, ?_⟩
  · intro hie
    have hcr : primarySort f r = "created_at" := by
      unfold primarySort
      rw [hie]
      show (if validSorts r = true then r else "created_at") = "created_at"
      rw [if_neg (by simp [hv])]
    rcases sortFields_cases f r with hcase | ⟨hcase, _, _⟩ <;> rw [hcase, hcr] <;> rfl
  · intro hne
    have hnm : r ∉ inequalityFields f := fun hm => by
      rw [inequality_valid hm] at hv
      exact Bool.noConfusion hv
    obtain ⟨hpr, _⟩ := primarySort_of_ne_nil r hne
    have hhead : (inequalityFields f).head? = some (primarySort f r) := by
      rw [hpr]
      exact primarySortRaw_of_not_mem hne hnm
    rcases sortFields_cases f r with hcase | ⟨hcase, _, _⟩ <;> rw [hcase, hhead] <;> rfl

/-- Witness for C8 (amended) at a city-filtered request with an
unknown sort key. -/
theorem c8_witness :
    validSorts "bogus" = false ∧
    ((∃ page, listCore ⟨exFilterCity, ⟨"bogus", "asc", 0, PageToken.empty⟩⟩ exStoreEmpty =
        Except.ok page) ∧
      (inequalityFields exFilterCity = [] →
        (sortFields exFilterCity "bogus").head? = some "created_at") ∧
      (inequalityFields exFilterCity ≠ [] →
        (sortFields exFilterCity "bogus").head? = (inequalityFields exFilterCity).head?)) :=
  ⟨by decide, c8_unsortable_fallback exFilterCity "bogus" "asc" 0 exStoreEmpty (by decide)⟩

/-- C9: the store-query limit is the requested page size clamped to
`[1, 100]`, with 20 substituted for absent or non-positive sizes; no
assembled query ever carries a limit above 100. -/
theorem c9_page_size_clamp (req : SearchRequest) (q : QuerySpec)
    (h : buildQuery req = Except.ok q) :
    1 ≤ q.limit ∧ q.limit ≤ 100 ∧
    (req.sorting.pageSize ≤ 0 → q.limit = 20) ∧
    (1 ≤ req.sorting.pageSize → req.sorting.pageSize ≤ 100 →
      q.limit = req.sorting.pageSize) ∧
    (100 < req.sorting.pageSize → q.limit = 100) := by
  obtain ⟨_, _, hlim⟩ := buildQuery_ok_spec h
  rw [hlim]
  exact ⟨effectiveLimit_pos _, effectiveLimit_le _,
    fun hp => effectiveLimit_nonpos hp,
    fun h1 h2 => effectiveLimit_of_in_range h1 h2,
    fun hp => effectiveLimit_of_gt hp⟩

/-- Witness for C9 at the page-size-1 request. -/
theorem c9_witness :
    buildQuery exReqPage1 = Except.ok exQSpec1 ∧
    (1 ≤ exQSpec1.limit ∧ exQSpec1.limit ≤ 100 ∧
      (exReqPage1.sorting.pageSize ≤ 0 → exQSpec1.limit = 20) ∧
      (1 ≤ exReqPage1.sorting.pageSize → exReqPage1.sorting.pageSize ≤ 100 →
        exQSpec1.limit = exReqPage1.sorting.pageSize) ∧
      (100 < exReqPage1.sorting.pageSize → exQSpec1.limit = 100)) :=
  ⟨rfl, c9_page_size_clamp exReqPage1 exQSpec1 rfl⟩

/-- C10: the ordered field list is duplicate-free with length 2 or 3 —
it never grows with the number of active range filters — and every
emitted next-page token carries exactly one value per plan field. -/
theorem c10_plan_bounded (f : FilterRequest) (r : String) :
    (sortFields f r).Nodup ∧
    ((sortFields f r).length = 2 ∨ (sortFields f r).length = 3) ∧
    ∀ (req : SearchRequest) (store : QuerySpec → List Event)
      (events : List Event) (vals : List JVal),
      req.filters = f → req.sorting.sortKey = r →
      listCore req store = Except.ok (events, PageToken.wire vals) →
      vals.length = (sortFields f r).length := by
  refine ⟨sortFields_nodup f r, sortFields_length f r, ?_⟩
  intro req store events vals hf hr h
  obtain ⟨-, hex⟩ := listCore_token_encode h
  obtain ⟨lastEvent, -, htok⟩ := hex (fun hcon => PageToken.noConfusion hcon)
  rw [hf, hr] at htok
  simp only [encodeCursor] at htok
  injection htok with hveq
  rw [hveq]
  simp [cursorValuesOf]

/-- Witness for C10 at a full single-record page. -/
theorem c10_witness :
    exReqPage1.filters = exFilterNone ∧ exReqPage1.sorting.sortKey = "" ∧
    listCore exReqPage1 exStoreOne =
      Except.ok ([exEvent], PageToken.wire [JVal.jstr "0", JVal.jstr "e1"]) ∧
    ([JVal.jstr "0", JVal.jstr "e1"] : List JVal).length =
      (sortFields exFilterNone "").length :=
  ⟨rfl, rfl, rfl,
    (c10_plan_bounded exFilterNone "").2.2 exReqPage1 exStoreOne [exEvent]
      [JVal.jstr "0", JVal.jstr "e1"] rfl rfl rfl⟩

end CloudFunctionEvent
